import Mathlib

/-
Verification of hack/generate_podspec_equal.py, a source-to-source code
generator that parses Go struct/map type declarations and emits deep
equality functions for the closure of types reachable from a root name.

The Python source is shallowly embedded: strings are Lean `String`s,
Python dicts (whose keys are only looked up, inserted and membership
tested, never iterated) are association lists with insertion-order
update-in-place semantics, Python sets (membership-only) are lists, and
the anchored regular expressions of the source are modelled as greedy
prefix parsers, which agree with the regexes here because every
quantified character class in them is disjoint from the literal or class
that follows it (so greedy matching needs no backtracking).
-/

namespace PodspecGen

/-! ## Character classes and low-level string helpers -/

/-- Python regex class `\s` (the input is split on newlines first, but we
keep the full class). -/
def pySpace (c : Char) : Bool :=
  c = ' ' || c = '\t' || c = '\n' || c = '\r' || c = '\x0b' || c = '\x0c'

/-- Python regex class `\w`, restricted to ASCII as used by Go identifiers. -/
def pyWord (c : Char) : Bool :=
  c.isAlphanum || c = '_'

/-- Python regex class `[\w\.]`. -/
def pyWordDot (c : Char) : Bool :=
  pyWord c || c = '.'

/-- Characters allowed by the field-type class in the source regex:
everything except whitespace and a backtick. -/
def fieldTypeChar (c : Char) : Bool :=
  !(pySpace c) && c ≠ Char.ofNat 96

/-- Python `s.startswith(p)`. -/
def strStartsWith (s p : String) : Bool :=
  p.data.isPrefixOf s.data

/-- Python `s[n:]` (slicing by characters). -/
def strDrop (s : String) (n : Nat) : String :=
  ⟨s.data.drop n⟩

/-- Match a literal character sequence at the front, returning the rest. -/
def dropLit : List Char → List Char → Option (List Char)
  | [], l => some l
  | _ :: _, [] => none
  | p :: ps, c :: cs => if p = c then dropLit ps cs else none

/-- Greedy `C+` for a character class `p`: at least one character, as many
as possible, returning (matched, rest). -/
def span1 (p : Char → Bool) (l : List Char) : Option (List Char × List Char) :=
  let t := l.takeWhile p
  if t.isEmpty then none else some (t, l.drop t.length)

/-- Python `str.replace("[]", "")`: delete every occurrence of `[]`,
scanning left to right. -/
def removeBrackets : List Char → List Char
  | '[' :: ']' :: rest => removeBrackets rest
  | c :: rest => c :: removeBrackets rest
  | [] => []

/-- Python `str.replace("*", "")`. -/
def removeStars (l : List Char) : List Char :=
  l.filter (fun c => c ≠ '*')

/-- `base = ftype.replace("[]", "").replace("*", "")` from `main`. -/
def fieldBase (ftype : String) : String :=
  ⟨removeStars (removeBrackets ftype.data)⟩

/-- Python `line.split('//')[0]`: the prefix before the first `//`. -/
def takeUntilSlashes : List Char → List Char
  | '/' :: '/' :: _ => []
  | c :: rest => c :: takeUntilSlashes rest
  | [] => []

/-- Python `content.split('\n')` (keeps empty parts). -/
def splitNl : List Char → List (List Char)
  | [] => [[]]
  | '\n' :: rest => [] :: splitNl rest
  | c :: rest =>
    match splitNl rest with
    | h :: t => (c :: h) :: t
    | [] => [[c]]

/-! ## Association lists with Python-dict semantics -/

/-- Dict lookup (`d[k]` / `d.get`); keys are unique by construction of
`ainsert`, so first match is the dict entry. -/
def alookup {α : Type} : List (String × α) → String → Option α
  | [], _ => none
  | (k, v) :: rest, key => if k = key then some v else alookup rest key

/-- Dict membership (`k in d`). -/
def acontains {α : Type} (l : List (String × α)) (k : String) : Bool :=
  (alookup l k).isSome

/-- Dict assignment `d[k] = v`: updates an existing key in place (keeping
its insertion position, as Python 3.7+ dicts do) or appends. -/
def ainsert {α : Type} : List (String × α) → String → α → List (String × α)
  | [], k, v => [(k, v)]
  | (k0, v0) :: rest, k, v =>
    if k0 = k then (k, v) :: rest else (k0, v0) :: ainsert rest k v

/-- `d[k].append(x)` for dict-of-list values; no-op on a missing key
(which cannot occur in the parser, where the key is always inserted
before any append). -/
def aappend {α : Type} : List (String × List α) → String → α → List (String × List α)
  | [], _, _ => []
  | (k0, v0) :: rest, k, x =>
    if k0 = k then (k0, v0 ++ [x]) :: rest else (k0, v0) :: aappend rest k x

/-! ## Data model -/

/-- A struct field: (name, raw type text), from `parse_types`. -/
abbrev Fields := List (String × String)

/-- The composite-type registry: name → ordered field list. -/
abbrev Structs := List (String × Fields)

/-- The map-alias registry: name → (key type, value type). -/
abbrev Maps := List (String × (String × String))

/-! ## Override tables (module constants of the source) -/

/-- `SPECIAL_TYPES`: base type name → method implementing custom equality. -/
def SPECIAL_TYPES : List (String × String) :=
  [("resource.Quantity", "Equal"), ("metav1.Time", "Equal"), ("metav1.MicroTime", "Equal")]

/-- Lookup in `SPECIAL_TYPES` (Python dict membership plus subscript). -/
def specialLookup (t : String) : Option String :=
  alookup SPECIAL_TYPES t

/-- `COMPARABLE_TYPES`: types compared with `==`. -/
def COMPARABLE_TYPES : List String :=
  ["intstr.IntOrString"]

/-- `EXTERNAL_TYPES`: types that fall back to `reflect.DeepEqual`. -/
def EXTERNAL_TYPES : List String :=
  ["metav1.ObjectMeta", "metav1.LabelSelector", "metav1.OwnerReference",
   "metav1.NamespaceSelector"]

/-! ## Emitted line templates

Each `line...` definition is one f-string template of
`generate_equal_method` / `generate_map_equal`, abstracted over its
interpolated parts. -/

def lineHeader (name : String) : String :=
  "func " ++ name ++ "Equal(a, b corev1." ++ name ++ ") bool \x7b"

def lineNilGuard (ind a b : String) : String :=
  ind ++ "if (" ++ a ++ " == nil) != (" ++ b ++ " == nil) \x7b return false \x7d"

def lineNotNilOpen (ind a : String) : String :=
  ind ++ "if " ++ a ++ " != nil \x7b"

def lineLen (ind a b : String) : String :=
  ind ++ "if len(" ++ a ++ ") != len(" ++ b ++ ") \x7b return false \x7d"

def lineForRange (ind a : String) : String :=
  ind ++ "for i := range " ++ a ++ " \x7b"

def lineForKV (ind a : String) : String :=
  ind ++ "for k, v := range " ++ a ++ " \x7b"

def lineStructCall (ind t a b : String) : String :=
  ind ++ "if !" ++ t ++ "Equal(" ++ a ++ ", " ++ b ++ ") \x7b return false \x7d"

def lineSpecialCall (ind a meth b : String) : String :=
  ind ++ "if !" ++ a ++ "." ++ meth ++ "(" ++ b ++ ") \x7b return false \x7d"

def lineDirect (ind a b : String) : String :=
  ind ++ "if " ++ a ++ " != " ++ b ++ " \x7b return false \x7d"

def lineDeepEqual (ind a b : String) : String :=
  ind ++ "if !reflect.DeepEqual(" ++ a ++ ", " ++ b ++ ") \x7b return false \x7d"

def lineMapEntry (ind b : String) : String :=
  ind ++ "if v2, ok := " ++ b ++ "[k]; !ok || v != v2 \x7b return false \x7d"

def lineMapEntryCustom (meth : String) : String :=
  "\t\tif v2, ok := b[k]; !ok || !v." ++ meth ++ "(v2) \x7b return false \x7d"

def lineClose (ind : String) : String :=
  ind ++ "\x7d"

/-! ## The inline-map regex of the emitter -/

/-- Model of `re.match(r'map\[([\w\.]+)\]([\w\.]+)', base_type)`: the
pattern is anchored at the start and may leave a suffix unconsumed;
greedy matching of `[\w\.]+` is exact because the class excludes `]`. -/
def parseMapKV (s : String) : Option (String × String) := do
  let r1 ← dropLit "map[".data s.data
  let (kt, r2) ← span1 pyWordDot r1
  let r3 ← dropLit [']'] r2
  let (vt, _) ← span1 pyWordDot r3
  pure (⟨kt⟩, ⟨vt⟩)

/-! ## Emitter: `generate_equal_method`

The Python function computes, per field, `is_ptr` and then a shared
comparison block parameterized by `indent`, `a_val`, `b_val` and
`base_type`; `bodyLines` is that shared block (source lines 92-151),
`fieldLines` adds the pointer wrapping (lines 71-91 and 153-154). -/

def bodyLines (s : Structs) (m : Maps) (ind av bv base : String) : List String :=
  if strStartsWith base "[]" then
    -- sequence field (source lines 92-124)
    let elem := strDrop base 2
    [lineLen ind av bv, lineForRange ind av] ++
    (if strStartsWith elem "*" then
      -- sequence-of-pointer element (lines 99-111); note there is no
      -- EXTERNAL_TYPES case here, and the COMPARABLE_TYPES branch emits
      -- the same text as the default branch (lines 107-110)
      let eb := strDrop elem 1
      [lineNilGuard (ind ++ "\t") (av ++ "[i]") (bv ++ "[i]"),
       lineNotNilOpen (ind ++ "\t") (av ++ "[i]")] ++
      [(if acontains s eb then
          lineStructCall (ind ++ "\t\t") eb ("*" ++ av ++ "[i]") ("*" ++ bv ++ "[i]")
        else
          match specialLookup eb with
          | some meth => lineSpecialCall (ind ++ "\t\t") (av ++ "[i]") meth ("*" ++ bv ++ "[i]")
          | none =>
            if COMPARABLE_TYPES.contains eb then
              lineDirect (ind ++ "\t\t") ("*" ++ av ++ "[i]") ("*" ++ bv ++ "[i]")
            else
              lineDirect (ind ++ "\t\t") ("*" ++ av ++ "[i]") ("*" ++ bv ++ "[i]"))] ++
      [lineClose (ind ++ "\t")]
    else
      -- plain sequence element (lines 112-122); no map-alias case here
      [(if acontains s elem then
          lineStructCall (ind ++ "\t") elem (av ++ "[i]") (bv ++ "[i]")
        else
          match specialLookup elem with
          | some meth => lineSpecialCall (ind ++ "\t") (av ++ "[i]") meth (bv ++ "[i]")
          | none =>
            if COMPARABLE_TYPES.contains elem then
              lineDirect (ind ++ "\t") (av ++ "[i]") (bv ++ "[i]")
            else if EXTERNAL_TYPES.contains elem then
              lineDeepEqual (ind ++ "\t") (av ++ "[i]") (bv ++ "[i]")
            else
              lineDirect (ind ++ "\t") (av ++ "[i]") (bv ++ "[i]"))]) ++
    [lineClose ind]
  else if strStartsWith base "map[" then
    -- inline map field (lines 126-136); the captured key/value types are
    -- never used by the emitted text, which always compares values with
    -- direct value equality
    match parseMapKV base with
    | some _ =>
      [lineLen ind av bv, lineForKV ind av, lineMapEntry (ind ++ "\t") bv,
       lineClose ind]
    | none => [lineDeepEqual ind av bv]
  else
    -- scalar field (lines 138-151)
    [(if acontains m base then
        lineStructCall ind base av bv
      else if acontains s base then
        lineStructCall ind base av bv
      else
        match specialLookup base with
        | some meth => lineSpecialCall ind av meth bv
        | none =>
          if COMPARABLE_TYPES.contains base then
            lineDirect ind av bv
          else if EXTERNAL_TYPES.contains base then
            lineDeepEqual ind av bv
          else
            lineDirect ind av bv)]

/-- One field of `generate_equal_method` (source lines 71-154). -/
def fieldLines (s : Structs) (m : Maps) (fname ftype : String) : List String :=
  if strStartsWith ftype "*" then
    [lineNilGuard "\t" ("a." ++ fname) ("b." ++ fname),
     lineNotNilOpen "\t" ("a." ++ fname)] ++
    bodyLines s m "\t\t" ("*a." ++ fname) ("*b." ++ fname) (strDrop ftype 1) ++
    ["\t\x7d"]
  else
    bodyLines s m "\t" ("a." ++ fname) ("b." ++ fname) ftype

/-- The line list built by `generate_equal_method` before joining. -/
def equalMethodLines (name : String) (fields : Fields) (s : Structs) (m : Maps) :
    List String :=
  lineHeader name ::
    (fields.flatMap (fun f => fieldLines s m f.1 f.2) ++ ["\treturn true", "\x7d"])

/-- `generate_equal_method` (the joined text it returns). -/
def generate_equal_method (name : String) (fields : Fields) (s : Structs) (m : Maps) :
    String :=
  String.intercalate "\n" (equalMethodLines name fields s m)

/-- The line list built by `generate_map_equal` (source lines 160-176);
the `val_type == "resource.Quantity"` branch is kept although it is
shadowed by the `SPECIAL_TYPES` branch before it. -/
def mapEqualLines (name kt vt : String) : List String :=
  let _ := kt
  [lineHeader name, lineLen "\t" "a" "b", lineForKV "\t" "a"] ++
  [(match specialLookup vt with
    | some meth => lineMapEntryCustom meth
    | none =>
      if vt = "resource.Quantity" then lineMapEntryCustom "Equal"
      else lineMapEntry "\t\t" "b")] ++
  ["\t\x7d", "\treturn true", "\x7d"]

/-- `generate_map_equal` (the joined text it returns). -/
def generate_map_equal (name kt vt : String) : String :=
  String.intercalate "\n" (mapEqualLines name kt vt)

/-! ## Parser: `parse_types` (source lines 26-65)

Each regex of the source is an anchored pattern whose quantified classes
are pairwise disjoint from what follows them, so a greedy prefix parser
is an exact model. -/

/-- `^type\s+(\w+)\s+map\[([\w\.]+)\]([\w\.]+)`. -/
def matchMapType (l : List Char) : Option (String × String × String) := do
  let r1 ← dropLit "type".data l
  let (_, r2) ← span1 pySpace r1
  let (nm, r3) ← span1 pyWord r2
  let (_, r4) ← span1 pySpace r3
  let r5 ← dropLit "map[".data r4
  let (kt, r6) ← span1 pyWordDot r5
  let r7 ← dropLit [']'] r6
  let (vt, _) ← span1 pyWordDot r7
  pure (⟨nm⟩, ⟨kt⟩, ⟨vt⟩)

/-- `^type\s+(\w+)\s+struct\s+\{`. -/
def matchStructStart (l : List Char) : Option String := do
  let r1 ← dropLit "type".data l
  let (_, r2) ← span1 pySpace r1
  let (nm, r3) ← span1 pyWord r2
  let (_, r4) ← span1 pySpace r3
  let r5 ← dropLit "struct".data r4
  let (_, r6) ← span1 pySpace r5
  let _ ← dropLit [Char.ofNat 123] r6
  pure ⟨nm⟩

/-- `^\s+(\w+)\s+([^\x60\s]+)`: the field line pattern. -/
def matchField (l : List Char) : Option (String × String) := do
  let (_, r1) ← span1 pySpace l
  let (fn, r2) ← span1 pyWord r1
  let (_, r3) ← span1 pySpace r2
  let (ft, _) ← span1 fieldTypeChar r3
  pure (⟨fn⟩, ⟨ft⟩)

/-- `^\}`. -/
def matchEnd (l : List Char) : Bool :=
  match l with
  | c :: _ => c = Char.ofNat 125
  | [] => false

/-- The loop state of `parse_types`. -/
structure ParseState where
  structs : Structs
  maps : Maps
  current : Option String
deriving DecidableEq

/-- One iteration of the line loop of `parse_types` (source lines 38-63). -/
def parseLine (st : ParseState) (l : List Char) : ParseState :=
  match matchMapType l with
  | some (n, kt, vt) => ⟨st.structs, ainsert st.maps n (kt, vt), st.current⟩
  | none =>
    match matchStructStart l with
    | some n => ⟨ainsert st.structs n [], st.maps, some n⟩
    | none =>
      match st.current with
      | none => st
      | some cur =>
        if matchEnd l then ⟨st.structs, st.maps, none⟩
        else
          match matchField (takeUntilSlashes l) with
          | some f => ⟨aappend st.structs cur f, st.maps, st.current⟩
          | none => st

/-- `parse_types(content)`. -/
def parse_types (content : String) : Structs × Maps :=
  let fin := (splitNl content.data).foldl parseLine ⟨[], [], none⟩
  (fin.structs, fin.maps)

/-! ## Graph builder: the worklist loop of `main` (source lines 196-223) -/

/-- The loop state of the breadth-first closure: the FIFO worklist
`queue`, the `seen` set (membership-only, modelled as a list) and the
discovery order `ordered`. -/
structure BfsState where
  queue : List String
  seen : List String
  ordered : List String
deriving DecidableEq

/-- The enqueue decision for one struct field (source lines 208-217):
the field's base name is enqueued if it is a map-alias key not yet seen,
else if it is a struct key not yet seen.  The source's
`if base.startswith("map["): pass` (lines 214-215) has no effect and is
omitted. -/
def childStep (s : Structs) (m : Maps) (sn : List String) (acc : List String)
    (f : String × String) : List String :=
  let base := fieldBase f.2
  if acontains m base then
    if base ∈ sn then acc else acc ++ [base]
  else if acontains s base = true ∧ base ∉ sn then acc ++ [base]
  else acc

/-- The names enqueued while processing `name` (source lines 207-223);
`sn` is the seen set as of after `seen.add(name)`. -/
def childrenOf (s : Structs) (m : Maps) (name : String) (sn : List String) :
    List String :=
  match alookup s name with
  | some fields => fields.foldl (childStep s m sn) []
  | none =>
    match alookup m name with
    | some kv =>
      let base : String := ⟨removeStars kv.2.data⟩
      if acontains s base = true ∧ base ∉ sn then [base] else []
    | none => []

/-- One iteration of the `while queue:` loop (source lines 200-223). -/
def bfsStep (s : Structs) (m : Maps) (st : BfsState) : BfsState :=
  match st.queue with
  | [] => st
  | name :: rest =>
    if name ∈ st.seen then ⟨rest, st.seen, st.ordered⟩
    else ⟨rest ++ childrenOf s m name (name :: st.seen), name :: st.seen,
          st.ordered ++ [name]⟩

/-- Total number of fields in the registry; bounds how many names one
loop iteration can enqueue. -/
def totalFields (s : Structs) : Nat :=
  (s.map (fun p => p.2.length)).sum

/-- All names that can ever be enqueued are keys of one of the registries. -/
def allowedNames (s : Structs) (m : Maps) : List String :=
  s.map Prod.fst ++ m.map Prod.fst

/-- How many registry keys are not yet seen. -/
def unseenCount (l sn : List String) : Nat :=
  (l.filter (fun y => !decide (y ∈ sn))).length

/-- Termination measure for the worklist loop. -/
def bfsMeasure (s : Structs) (m : Maps) (st : BfsState) : Nat :=
  unseenCount (allowedNames s m) st.seen * (totalFields s + 2) + st.queue.length

def filter_length_mono {α : Type} (l : List α) (p q : α → Bool)
    (h : ∀ a, p a = true → q a = true) :
    (l.filter p).length ≤ (l.filter q).length := by
  induction l with
  | nil => simp
  | cons c t ih =>
    rw [List.filter_cons, List.filter_cons]
    cases hp : p c <;> cases hq : q c
    · simpa using ih
    · simp only [if_neg (Bool.false_ne_true), if_pos rfl, List.length_cons]
      exact Nat.le_succ_of_le ih
    · have := h c hp; rw [hq] at this; cases this
    · simpa using ih

def filter_length_strict {α : Type} (l : List α) (p q : α → Bool)
    (h : ∀ a, p a = true → q a = true) (x : α) (hx : x ∈ l)
    (hpx : p x = false) (hqx : q x = true) :
    (l.filter p).length < (l.filter q).length := by
  induction l with
  | nil => cases hx
  | cons c t ih =>
    rw [List.filter_cons, List.filter_cons]
    rcases List.mem_cons.mp hx with rfl | hmem
    · rw [hpx, hqx]
      simp only [if_neg (Bool.false_ne_true), if_pos rfl, List.length_cons]
      exact Nat.lt_succ_of_le (filter_length_mono t p q h)
    · cases hp : p c <;> cases hq : q c
      · simpa using ih hmem
      · simp only [if_neg (Bool.false_ne_true), if_pos rfl, List.length_cons]
        exact Nat.lt_succ_of_le (le_of_lt (ih hmem))
      · have := h c hp; rw [hq] at this; cases this
      · simpa using ih hmem

def unseenCount_mono (l sn : List String) (x : String) :
    unseenCount l (x :: sn) ≤ unseenCount l sn := by
  apply filter_length_mono
  intro a ha
  simp only [Bool.not_eq_true', decide_eq_false_iff_not, List.mem_cons] at ha ⊢
  exact fun h => ha (Or.inr h)

def unseenCount_strict (l sn : List String) (x : String) (hx : x ∈ l)
    (hns : x ∉ sn) : unseenCount l (x :: sn) < unseenCount l sn := by
  refine filter_length_strict l _ _ ?_ x hx ?_ ?_
  · intro a ha
    simp only [Bool.not_eq_true', decide_eq_false_iff_not, List.mem_cons] at ha ⊢
    exact fun h => ha (Or.inr h)
  · simp
  · simp [hns]

def alookup_eq_none {α : Type} (l : List (String × α)) (k : String)
    (h : k ∉ l.map Prod.fst) : alookup l k = none := by
  induction l with
  | nil => rfl
  | cons p rest ih =>
    simp only [List.map_cons, List.mem_cons] at h
    push_neg at h
    simp only [alookup]
    rw [if_neg (fun he => h.1 he.symm)]
    exact ih h.2

def childrenOf_nil (s : Structs) (m : Maps) (name : String) (sn : List String)
    (hs : alookup s name = none) (hm : alookup m name = none) :
    childrenOf s m name sn = [] := by
  simp [childrenOf, hs, hm]

def childStep_length (s : Structs) (m : Maps) (sn : List String)
    (acc : List String) (f : String × String) :
    (childStep s m sn acc f).length ≤ acc.length + 1 := by
  simp only [childStep]
  split
  · split <;> simp
  · split <;> simp

def foldl_childStep_length (s : Structs) (m : Maps) (sn : List String) :
    ∀ (fl : Fields) (acc : List String),
      (fl.foldl (childStep s m sn) acc).length ≤ acc.length + fl.length := by
  intro fl
  induction fl with
  | nil => intro acc; simp
  | cons f rest ih =>
    intro acc
    rw [List.foldl_cons]
    have h1 := ih (childStep s m sn acc f)
    have h2 := childStep_length s m sn acc f
    simp only [List.length_cons]
    omega

def alookup_fields_le (s : Structs) (name : String) (fields : Fields)
    (hs : alookup s name = some fields) : fields.length ≤ totalFields s := by
  induction s with
  | nil => simp [alookup] at hs
  | cons p rest ih =>
    simp only [alookup] at hs
    by_cases hp : p.1 = name
    · rw [if_pos hp] at hs
      cases hs
      simp only [totalFields, List.map_cons, List.sum_cons]
      omega
    · rw [if_neg hp] at hs
      have := ih hs
      simp only [totalFields, List.map_cons, List.sum_cons] at this ⊢
      omega

def childrenOf_length (s : Structs) (m : Maps) (name : String) (sn : List String) :
    (childrenOf s m name sn).length ≤ totalFields s + 1 := by
  cases hs : alookup s name with
  | some fields =>
    have h1 := foldl_childStep_length s m sn fields []
    have h2 := alookup_fields_le s name fields hs
    simp only [childrenOf, hs]
    simp only [List.length_nil, Nat.zero_add] at h1
    omega
  | none =>
    cases hm : alookup m name with
    | some kv =>
      simp only [childrenOf, hs, hm]
      split <;> simp
    | none => simp [childrenOf, hs, hm]

/-- One loop iteration strictly decreases the measure whenever the
worklist is nonempty: the source's `while` loop terminates. -/
def bfsMeasure_decreases (s : Structs) (m : Maps) (st : BfsState)
    (hq : st.queue ≠ []) : bfsMeasure s m (bfsStep s m st) < bfsMeasure s m st := by
  obtain ⟨q, sn, or⟩ := st
  cases q with
  | nil => exact absurd rfl hq
  | cons name rest =>
    by_cases hseen : name ∈ sn
    · simp [bfsStep, hseen, bfsMeasure]
    · simp only [bfsStep, if_neg hseen]
      by_cases hall : name ∈ allowedNames s m
      · have h1 : unseenCount (allowedNames s m) (name :: sn) <
            unseenCount (allowedNames s m) sn :=
          unseenCount_strict _ _ _ hall hseen
        have h2 : (childrenOf s m name (name :: sn)).length ≤ totalFields s + 1 :=
          childrenOf_length s m name (name :: sn)
        simp only [bfsMeasure, List.length_append, List.length_cons]
        set B := totalFields s + 2 with hB
        set u1 := unseenCount (allowedNames s m) (name :: sn)
        set u0 := unseenCount (allowedNames s m) sn
        have : u1 + 1 ≤ u0 := h1
        calc u1 * B + (rest.length + (childrenOf s m name (name :: sn)).length)
            < u1 * B + rest.length + B := by omega
          _ = (u1 + 1) * B + rest.length := by ring
          _ ≤ u0 * B + rest.length := by
              have := Nat.mul_le_mul_right B this
              omega
          _ < u0 * B + (rest.length + 1) := by omega
      · have hs0 : alookup s name = none := by
          apply alookup_eq_none
          intro h
          exact hall (List.mem_append.mpr (Or.inl h))
        have hm0 : alookup m name = none := by
          apply alookup_eq_none
          intro h
          exact hall (List.mem_append.mpr (Or.inr h))
        rw [childrenOf_nil s m name _ hs0 hm0]
        have h1 : unseenCount (allowedNames s m) (name :: sn) ≤
            unseenCount (allowedNames s m) sn := unseenCount_mono _ _ _
        simp only [bfsMeasure, List.append_nil, List.length_cons]
        have := Nat.mul_le_mul_right (totalFields s + 2) h1
        omega

/-- The `while queue:` loop of `main`, run to completion.  Totality (the
termination of the source's loop) is established by `bfsMeasure`. -/
def bfsRun (s : Structs) (m : Maps) (st : BfsState) : BfsState :=
  if st.queue = [] then st else bfsRun s m (bfsStep s m st)
termination_by bfsMeasure s m st
decreasing_by exact bfsMeasure_decreases s m st (by assumption)

/-- `ordered`, the VisitationOrder computed by `main` from a root name
(the source seeds the queue with the root `"PodSpec"`). -/
def visitationOrder (s : Structs) (m : Maps) (root : String) : List String :=
  (bfsRun s m ⟨[root], [], []⟩).ordered

/-! ## Output assembly (source lines 225-241) -/

/-- The fixed header printed before the generated functions. -/
def headerLines : List String :=
  ["// Code generated by hack/generate_podspec_equal.py. DO NOT EDIT.",
   "package workloadmanager",
   "",
   "import (",
   "\tcorev1 \"k8s.io/api/core/v1\"",
   "\t\"reflect\"",
   ")",
   ""]

/-- The per-type blocks printed by the final loop of `main` (lines
234-241), each block as its line list: a struct name gets its
`generate_equal_method` text, a map-alias name its `generate_map_equal`
text, and an undefined name is skipped. -/
def outputBlockLines (s : Structs) (m : Maps) (ord : List String) :
    List (List String) :=
  ord.filterMap (fun n =>
    match alookup s n with
    | some fields => some (equalMethodLines n fields s m)
    | none =>
      match alookup m n with
      | some kv => some (mapEqualLines n kv.1 kv.2)
      | none => none)

/-- The block emitted for a single defined name (the body of the final
loop of `main`); an undefined name yields the empty block, but
`outputBlockLines` never consults it for such a name. -/
def blockFor (s : Structs) (m : Maps) (n : String) : List String :=
  match alookup s n with
  | some fields => equalMethodLines n fields s m
  | none =>
    match alookup m n with
    | some kv => mapEqualLines n kv.1 kv.2
    | none => []

/-- The full text written to stdout: each header line, then each block
followed by the blank line `print("")` emits, every `print` appending a
newline. -/
def generatedText (s : Structs) (m : Maps) (ord : List String) : String :=
  String.join ((headerLines ++
    (outputBlockLines s m ord).flatMap
      (fun ls => [String.intercalate "\n" ls, ""])).map (fun l => l ++ "\n"))

/-- The composed pipeline of `main` on an input text and root name
(reading the file and locating it via `go list` is outside the model;
the source fixes `root = "PodSpec"`). -/
def generatorOutput (content root : String) : String :=
  let p := parse_types content
  generatedText p.1 p.2 (visitationOrder p.1 p.2 root)

/-- The input text of the specification scenario: a declaration of
`type Pod struct` with fields `Name string`, `Labels map[string]string`
and `Owner *Pod`, one field per line as the line-oriented parser
requires. -/
def podScenarioInput : String :=
  "type Pod struct \x7b\n\tName string\n\tLabels map[string]string\n\tOwner *Pod\n\x7d"

/-- Shallow semantics of the emitted pointer-field template: the two Go
lines `if (a.F == nil) != (b.F == nil) \x7b return false \x7d` and
`if a.F != nil \x7b ... \x7d`, with `inner` the comparison emitted for
the dereferenced values; a Go nil pointer is `none`. -/
def ptrFieldSem {α : Type} (inner : α → α → Bool) : Option α → Option α → Bool
  | none, none => true
  | some _, none => false
  | none, some _ => false
  | some x, some y => inner x y

/-! ## Basic lemmas about the worklist loop -/

theorem bfsRun_eq (s : Structs) (m : Maps) (st : BfsState) :
    bfsRun s m st = if st.queue = [] then st else bfsRun s m (bfsStep s m st) := by
  rw [bfsRun]

theorem bfsRun_nil (s : Structs) (m : Maps) (st : BfsState)
    (h : st.queue = []) : bfsRun s m st = st := by
  rw [bfsRun_eq, if_pos h]

theorem bfsRun_cons (s : Structs) (m : Maps) (st : BfsState)
    (h : st.queue ≠ []) : bfsRun s m st = bfsRun s m (bfsStep s m st) := by
  rw [bfsRun_eq, if_neg h]

/-- Any property preserved by one loop iteration holds of the final
state. -/
theorem bfsRun_inv (s : Structs) (m : Maps) (P : BfsState → Prop)
    (hstep : ∀ st, st.queue ≠ [] → P st → P (bfsStep s m st)) :
    ∀ st, P st → P (bfsRun s m st) := by
  intro st
  generalize hn : bfsMeasure s m st = n
  induction n using Nat.strong_induction_on generalizing st with
  | _ n ih =>
    intro hp
    by_cases hq : st.queue = []
    · rw [bfsRun_nil s m st hq]
      exact hp
    · rw [bfsRun_cons s m st hq]
      exact ih (bfsMeasure s m (bfsStep s m st))
        (hn ▸ bfsMeasure_decreases s m st hq) (bfsStep s m st) rfl
        (hstep st hq hp)

/-- The two shapes of one loop iteration on a nonempty worklist. -/
theorem bfsStep_seen (s : Structs) (m : Maps) (name : String)
    (rest sn or : List String) (h : name ∈ sn) :
    bfsStep s m ⟨name :: rest, sn, or⟩ = ⟨rest, sn, or⟩ := by
  simp [bfsStep, h]

theorem bfsStep_unseen (s : Structs) (m : Maps) (name : String)
    (rest sn or : List String) (h : name ∉ sn) :
    bfsStep s m ⟨name :: rest, sn, or⟩ =
      ⟨rest ++ childrenOf s m name (name :: sn), name :: sn, or ++ [name]⟩ := by
  simp [bfsStep, h]

/-- Every name the loop enqueues is a key of one of the registries and is
not in the seen set as of immediately after the current name was marked
seen. -/
theorem childStep_spec (s : Structs) (m : Maps) (sn acc : List String)
    (f : String × String) (b : String) (hb : b ∈ childStep s m sn acc f) :
    b ∈ acc ∨ (((acontains s b || acontains m b) = true) ∧ b ∉ sn) := by
  simp only [childStep] at hb
  split at hb
  · split at hb
    · exact Or.inl hb
    · rcases List.mem_append.mp hb with h | h
      · exact Or.inl h
      · simp only [List.mem_singleton] at h
        subst h
        refine Or.inr ⟨by simp_all, by assumption⟩
  · split at hb
    · rcases List.mem_append.mp hb with h | h
      · exact Or.inl h
      · simp only [List.mem_singleton] at h
        subst h
        rename_i hcond
        exact Or.inr ⟨by simp [hcond.1], hcond.2⟩
    · exact Or.inl hb

/-! ## String prefix lemmas -/

theorem strStartsWith_self_append (p t : String) :
    strStartsWith (p ++ t) p = true := by
  simp only [strStartsWith, String.data_append]
  exact List.isPrefixOf_iff_prefix.mpr (List.prefix_append _ _)

theorem strStartsWith_star (t : String) : strStartsWith ("*" ++ t) "*" = true :=
  strStartsWith_self_append "*" t

theorem strDrop_star (t : String) : strDrop ("*" ++ t) 1 = t := by
  simp [strDrop, String.data_append]

theorem strStartsWith_brackets (t : String) :
    strStartsWith ("[]" ++ t) "[]" = true :=
  strStartsWith_self_append "[]" t

theorem strDrop_brackets (t : String) : strDrop ("[]" ++ t) 2 = t := by
  simp [strDrop, String.data_append]

theorem brackets_not_star (t : String) :
    strStartsWith ("[]" ++ t) "*" = false := by
  simp [strStartsWith, String.data_append, List.isPrefixOf]

theorem star_not_brackets (t : String) :
    strStartsWith ("*" ++ t) "[]" = false := by
  simp [strStartsWith, String.data_append, List.isPrefixOf]

theorem star_not_map (t : String) :
    strStartsWith ("*" ++ t) "map[" = false := by
  simp [strStartsWith, String.data_append, List.isPrefixOf]

theorem dropLit_eq (p : List Char) :
    ∀ (l r : List Char), dropLit p l = some r → l = p ++ r := by
  induction p with
  | nil =>
    intro l r h
    simp only [dropLit, Option.some.injEq] at h
    simp [h]
  | cons c cs ih =>
    intro l r h
    cases l with
    | nil => simp [dropLit] at h
    | cons d ds =>
      simp only [dropLit] at h
      split at h
      · rename_i he
        subst he
        rw [List.cons_append]
        exact congrArg _ (ih ds r h)
      · cases h

/-- A successful inline-map regex match forces the `map[` prefix (and in
particular rules out the `[]` sequence prefix). -/
theorem parseMapKV_prefix (b : String) (k v : String)
    (h : parseMapKV b = some (k, v)) :
    strStartsWith b "map[" = true ∧ strStartsWith b "[]" = false ∧
      strStartsWith b "*" = false := by
  unfold parseMapKV at h
  cases hd : dropLit "map[".data b.data with
  | none => rw [hd] at h; cases h
  | some r1 =>
    have hb : b.data = "map[".data ++ r1 := dropLit_eq _ _ _ hd
    refine ⟨?_, ?_, ?_⟩
    · simp only [strStartsWith, hb]
      exact List.isPrefixOf_iff_prefix.mpr (List.prefix_append _ _)
    · simp [strStartsWith, hb, List.isPrefixOf]
    · simp [strStartsWith, hb, List.isPrefixOf]

/-! ## Characterization of the emitter, one lemma per field shape and
classification outcome -/

theorem fieldLines_ptr (s : Structs) (m : Maps) (fname t : String) :
    fieldLines s m fname ("*" ++ t) =
      [lineNilGuard "\t" ("a." ++ fname) ("b." ++ fname),
       lineNotNilOpen "\t" ("a." ++ fname)] ++
      bodyLines s m "\t\t" ("*a." ++ fname) ("*b." ++ fname) t ++ ["\t\x7d"] := by
  rw [fieldLines, if_pos (by rw [strStartsWith_star]), strDrop_star]

theorem fieldLines_nonptr (s : Structs) (m : Maps) (fname t : String)
    (h : strStartsWith t "*" = false) :
    fieldLines s m fname t =
      bodyLines s m "\t" ("a." ++ fname) ("b." ++ fname) t := by
  rw [fieldLines, if_neg (by rw [h]; exact Bool.false_ne_true)]

theorem bodyLines_scalar_alias (s : Structs) (m : Maps) (ind av bv base : String)
    (h1 : strStartsWith base "[]" = false) (h2 : strStartsWith base "map[" = false)
    (hm : acontains m base = true) :
    bodyLines s m ind av bv base = [lineStructCall ind base av bv] := by
  rw [bodyLines, if_neg (by rw [h1]; exact Bool.false_ne_true),
      if_neg (by rw [h2]; exact Bool.false_ne_true), if_pos hm]

theorem bodyLines_scalar_struct (s : Structs) (m : Maps) (ind av bv base : String)
    (h1 : strStartsWith base "[]" = false) (h2 : strStartsWith base "map[" = false)
    (hm : acontains m base = false) (hs : acontains s base = true) :
    bodyLines s m ind av bv base = [lineStructCall ind base av bv] := by
  rw [bodyLines, if_neg (by rw [h1]; exact Bool.false_ne_true),
      if_neg (by rw [h2]; exact Bool.false_ne_true),
      if_neg (by rw [hm]; exact Bool.false_ne_true), if_pos hs]

theorem bodyLines_scalar_special (s : Structs) (m : Maps)
    (ind av bv base meth : String)
    (h1 : strStartsWith base "[]" = false) (h2 : strStartsWith base "map[" = false)
    (hm : acontains m base = false) (hs : acontains s base = false)
    (hsp : specialLookup base = some meth) :
    bodyLines s m ind av bv base = [lineSpecialCall ind av meth bv] := by
  rw [bodyLines, if_neg (by rw [h1]; exact Bool.false_ne_true),
      if_neg (by rw [h2]; exact Bool.false_ne_true),
      if_neg (by rw [hm]; exact Bool.false_ne_true),
      if_neg (by rw [hs]; exact Bool.false_ne_true), hsp]

theorem bodyLines_scalar_comparable (s : Structs) (m : Maps)
    (ind av bv base : String)
    (h1 : strStartsWith base "[]" = false) (h2 : strStartsWith base "map[" = false)
    (hm : acontains m base = false) (hs : acontains s base = false)
    (hsp : specialLookup base = none)
    (hc : COMPARABLE_TYPES.contains base = true) :
    bodyLines s m ind av bv base = [lineDirect ind av bv] := by
  rw [bodyLines, if_neg (by rw [h1]; exact Bool.false_ne_true),
      if_neg (by rw [h2]; exact Bool.false_ne_true),
      if_neg (by rw [hm]; exact Bool.false_ne_true),
      if_neg (by rw [hs]; exact Bool.false_ne_true), hsp, if_pos hc]

theorem bodyLines_scalar_external (s : Structs) (m : Maps)
    (ind av bv base : String)
    (h1 : strStartsWith base "[]" = false) (h2 : strStartsWith base "map[" = false)
    (hm : acontains m base = false) (hs : acontains s base = false)
    (hsp : specialLookup base = none)
    (hc : COMPARABLE_TYPES.contains base = false)
    (he : EXTERNAL_TYPES.contains base = true) :
    bodyLines s m ind av bv base = [lineDeepEqual ind av bv] := by
  rw [bodyLines, if_neg (by rw [h1]; exact Bool.false_ne_true),
      if_neg (by rw [h2]; exact Bool.false_ne_true),
      if_neg (by rw [hm]; exact Bool.false_ne_true),
      if_neg (by rw [hs]; exact Bool.false_ne_true), hsp,
      if_neg (by rw [hc]; exact Bool.false_ne_true), if_pos he]

theorem bodyLines_scalar_default (s : Structs) (m : Maps)
    (ind av bv base : String)
    (h1 : strStartsWith base "[]" = false) (h2 : strStartsWith base "map[" = false)
    (hm : acontains m base = false) (hs : acontains s base = false)
    (hsp : specialLookup base = none)
    (hc : COMPARABLE_TYPES.contains base = false)
    (he : EXTERNAL_TYPES.contains base = false) :
    bodyLines s m ind av bv base = [lineDirect ind av bv] := by
  rw [bodyLines, if_neg (by rw [h1]; exact Bool.false_ne_true),
      if_neg (by rw [h2]; exact Bool.false_ne_true),
      if_neg (by rw [hm]; exact Bool.false_ne_true),
      if_neg (by rw [hs]; exact Bool.false_ne_true), hsp,
      if_neg (by rw [hc]; exact Bool.false_ne_true),
      if_neg (by rw [he]; exact Bool.false_ne_true)]

theorem bodyLines_map_match (s : Structs) (m : Maps) (ind av bv base : String)
    (k v : String) (h : parseMapKV base = some (k, v)) :
    bodyLines s m ind av bv base =
      [lineLen ind av bv, lineForKV ind av, lineMapEntry (ind ++ "\t") bv,
       lineClose ind] := by
  obtain ⟨hmap, hnb, -⟩ := parseMapKV_prefix base k v h
  rw [bodyLines, if_neg (by rw [hnb]; exact Bool.false_ne_true), if_pos hmap, h]

theorem bodyLines_map_nomatch (s : Structs) (m : Maps) (ind av bv base : String)
    (h1 : strStartsWith base "[]" = false) (h2 : strStartsWith base "map[" = true)
    (h : parseMapKV base = none) :
    bodyLines s m ind av bv base = [lineDeepEqual ind av bv] := by
  rw [bodyLines, if_neg (by rw [h1]; exact Bool.false_ne_true), if_pos h2, h]

theorem bodyLines_seq (s : Structs) (m : Maps) (ind av bv elem : String)
    (h : strStartsWith elem "*" = false) :
    bodyLines s m ind av bv ("[]" ++ elem) =
      [lineLen ind av bv, lineForRange ind av] ++
      [(if acontains s elem then
          lineStructCall (ind ++ "\t") elem (av ++ "[i]") (bv ++ "[i]")
        else
          match specialLookup elem with
          | some meth =>
            lineSpecialCall (ind ++ "\t") (av ++ "[i]") meth (bv ++ "[i]")
          | none =>
            if COMPARABLE_TYPES.contains elem then
              lineDirect (ind ++ "\t") (av ++ "[i]") (bv ++ "[i]")
            else if EXTERNAL_TYPES.contains elem then
              lineDeepEqual (ind ++ "\t") (av ++ "[i]") (bv ++ "[i]")
            else
              lineDirect (ind ++ "\t") (av ++ "[i]") (bv ++ "[i]"))] ++
      [lineClose ind] := by
  simp only [bodyLines, strStartsWith_brackets, strDrop_brackets, h]
  simp

theorem bodyLines_seqptr (s : Structs) (m : Maps) (ind av bv eb : String) :
    bodyLines s m ind av bv ("[]" ++ ("*" ++ eb)) =
      [lineLen ind av bv, lineForRange ind av,
       lineNilGuard (ind ++ "\t") (av ++ "[i]") (bv ++ "[i]"),
       lineNotNilOpen (ind ++ "\t") (av ++ "[i]")] ++
      [(if acontains s eb then
          lineStructCall (ind ++ "\t\t") eb ("*" ++ av ++ "[i]") ("*" ++ bv ++ "[i]")
        else
          match specialLookup eb with
          | some meth =>
            lineSpecialCall (ind ++ "\t\t") (av ++ "[i]") meth ("*" ++ bv ++ "[i]")
          | none =>
            lineDirect (ind ++ "\t\t") ("*" ++ av ++ "[i]") ("*" ++ bv ++ "[i]"))] ++
      [lineClose (ind ++ "\t"), lineClose ind] := by
  simp only [bodyLines, strStartsWith_brackets, strDrop_brackets,
    strStartsWith_star, strDrop_star]
  simp [ite_self]

/-- The four decomposable positions for a base name with the
classification facts of an external-opaque entry. -/
theorem externalFieldLines (s : Structs) (m : Maps) (fname b : String)
    (h1 : strStartsWith b "[]" = false) (h2 : strStartsWith b "map[" = false)
    (h3 : strStartsWith b "*" = false)
    (hs : acontains s b = false) (hm : acontains m b = false)
    (hsp : specialLookup b = none)
    (hc : COMPARABLE_TYPES.contains b = false)
    (he : EXTERNAL_TYPES.contains b = true) :
    fieldLines s m fname b =
      [lineDeepEqual "\t" ("a." ++ fname) ("b." ++ fname)] ∧
    fieldLines s m fname ("*" ++ b) =
      [lineNilGuard "\t" ("a." ++ fname) ("b." ++ fname),
       lineNotNilOpen "\t" ("a." ++ fname),
       lineDeepEqual "\t\t" ("*a." ++ fname) ("*b." ++ fname), "\t\x7d"] ∧
    fieldLines s m fname ("[]" ++ b) =
      [lineLen "\t" ("a." ++ fname) ("b." ++ fname),
       lineForRange "\t" ("a." ++ fname),
       lineDeepEqual ("\t" ++ "\t") (("a." ++ fname) ++ "[i]")
         (("b." ++ fname) ++ "[i]"),
       lineClose "\t"] ∧
    fieldLines s m fname ("[]" ++ ("*" ++ b)) =
      [lineLen "\t" ("a." ++ fname) ("b." ++ fname),
       lineForRange "\t" ("a." ++ fname),
       lineNilGuard ("\t" ++ "\t") (("a." ++ fname) ++ "[i]")
         (("b." ++ fname) ++ "[i]"),
       lineNotNilOpen ("\t" ++ "\t") (("a." ++ fname) ++ "[i]"),
       lineDirect ("\t" ++ "\t\t") ("*" ++ ("a." ++ fname) ++ "[i]")
         ("*" ++ ("b." ++ fname) ++ "[i]"),
       lineClose ("\t" ++ "\t"), lineClose "\t"] := by
  refine ⟨?_, ?_, ?_, ?_⟩
  · rw [fieldLines_nonptr s m fname b h3,
        bodyLines_scalar_external s m _ _ _ _ h1 h2 hm hs hsp hc he]
  · rw [fieldLines_ptr,
        bodyLines_scalar_external s m _ _ _ _ h1 h2 hm hs hsp hc he]
    rfl
  · have hcm : b ∉ COMPARABLE_TYPES := by simpa using hc
    have hem : b ∈ EXTERNAL_TYPES := by simpa using he
    rw [fieldLines_nonptr s m fname _ (brackets_not_star b),
        bodyLines_seq s m _ _ _ _ h3]
    simp [hs, hsp, hcm, hem]
  · rw [fieldLines_nonptr s m fname _ (brackets_not_star ("*" ++ b)),
        bodyLines_seqptr]
    simp [hs, hsp]

theorem children_spec (s : Structs) (m : Maps) (name : String)
    (sn : List String) (b : String) (hb : b ∈ childrenOf s m name sn) :
    ((acontains s b || acontains m b) = true) ∧ b ∉ sn := by
  unfold childrenOf at hb
  split at hb
  · rename_i fields _
    have hfold : ∀ (fl : Fields) (acc : List String),
        (∀ x ∈ acc, ((acontains s x || acontains m x) = true) ∧ x ∉ sn) →
        ∀ x ∈ fl.foldl (childStep s m sn) acc,
          ((acontains s x || acontains m x) = true) ∧ x ∉ sn := by
      intro fl
      induction fl with
      | nil => intro acc hacc x hx; exact hacc x hx
      | cons f rest ih =>
        intro acc hacc x hx
        rw [List.foldl_cons] at hx
        refine ih (childStep s m sn acc f) ?_ x hx
        intro y hy
        rcases childStep_spec s m sn acc f y hy with h | h
        · exact hacc y h
        · exact h
    exact hfold fields [] (by simp) b hb
  · split at hb
    · rename_i kv _
      dsimp only at hb
      split at hb
      · simp only [List.mem_singleton] at hb
        subst hb
        rename_i hcond
        exact ⟨by simp [hcond.1], hcond.2⟩
      · cases hb
    · cases hb

/-! ## Output assembly lemmas -/

theorem acontains_false {α : Type} (l : List (String × α)) (k : String)
    (h : acontains l k = false) : alookup l k = none := by
  cases hl : alookup l k with
  | none => rfl
  | some v => rw [acontains, hl] at h; cases h

/-- The emitted blocks are exactly the blocks of the defined names of the
visitation order, in order. -/
theorem outputBlockLines_eq (s : Structs) (m : Maps) (ord : List String) :
    outputBlockLines s m ord =
      (ord.filter (fun n => acontains s n || acontains m n)).map (blockFor s m) := by
  induction ord with
  | nil => rfl
  | cons n t ih =>
    rw [outputBlockLines, List.filterMap_cons, List.filter_cons]
    cases hs : alookup s n with
    | some fields =>
      have hc : (acontains s n || acontains m n) = true := by
        simp [acontains, hs]
      rw [if_pos hc, List.map_cons]
      exact congrArg₂ _ (by rw [blockFor, hs]) ih
    | none =>
      cases hm : alookup m n with
      | some kv =>
        have hc : (acontains s n || acontains m n) = true := by
          simp [acontains, hs, hm]
        rw [if_pos hc, List.map_cons]
        exact congrArg₂ _ (by rw [blockFor, hs, hm]) ih
      | none =>
        have hc : (acontains s n || acontains m n) = false := by
          simp [acontains, hs, hm]
        rw [if_neg (by rw [hc]; exact Bool.false_ne_true)]
        exact ih

/-- Every emitted block opens with the function header line naming its
type. -/
theorem blockFor_head (s : Structs) (m : Maps) (n : String)
    (h : (acontains s n || acontains m n) = true) :
    (blockFor s m n).head? = some (lineHeader n) := by
  cases hs : alookup s n with
  | some fields => rw [blockFor, hs]; rfl
  | none =>
    cases hm : alookup m n with
    | some kv => rw [blockFor, hs, hm]; rfl
    | none => simp [acontains, hs, hm] at h

/-! ## Claims -/

/-- Claim C1, counterexample: for the field `Res map[string]resource.Quantity`
the emitted map comparison uses direct value equality `v != v2` even though
the value type `resource.Quantity` has a registered custom-equality
operation (`Equal`); the classification rule of the value type is ignored,
refuting the claim that it is applied. -/
theorem claim_c1_counterexample :
    equalMethodLines "S" [("Res", "map[string]resource.Quantity")]
        [("S", [("Res", "map[string]resource.Quantity")])] [] =
      ["func SEqual(a, b corev1.S) bool \x7b",
       "\tif len(a.Res) != len(b.Res) \x7b return false \x7d",
       "\tfor k, v := range a.Res \x7b",
       "\t\tif v2, ok := b.Res[k]; !ok || v != v2 \x7b return false \x7d",
       "\t\x7d",
       "\treturn true",
       "\x7d"] ∧
    specialLookup "resource.Quantity" = some "Equal" ∧
    "\t\tif v2, ok := b.Res[k]; !ok || !v.Equal(v2) \x7b return false \x7d" ∉
      equalMethodLines "S" [("Res", "map[string]resource.Quantity")]
        [("S", [("Res", "map[string]resource.Quantity")])] [] := by
  decide

/-- Claim C1 as amended: for every composite-type field whose declared
type matches the inline-map pattern `map[K]V`, the emitted comparison
checks that the entry counts are equal and that every key of the
left-hand map is present in the right-hand map, but compares the values
unconditionally with direct value equality (`v != v2`): the emitted lines
do not depend on the value type `v` or its classification at all. -/
theorem claim_c1 : ∀ (s : Structs) (m : Maps) (fname base k v : String),
    parseMapKV base = some (k, v) →
    fieldLines s m fname base =
      [lineLen "\t" ("a." ++ fname) ("b." ++ fname),
       lineForKV "\t" ("a." ++ fname),
       lineMapEntry ("\t" ++ "\t") ("b." ++ fname),
       lineClose "\t"] := by
  intro s m fname base k v h
  obtain ⟨-, -, hnstar⟩ := parseMapKV_prefix base k v h
  rw [fieldLines_nonptr s m fname base hnstar,
      bodyLines_map_match s m _ _ _ _ k v h]

/-- Witness for claim C1 at the field type `map[string]resource.Quantity`. -/
theorem claim_c1_witness :
    fieldLines [] [] "Res" "map[string]resource.Quantity" =
      [lineLen "\t" ("a." ++ "Res") ("b." ++ "Res"),
       lineForKV "\t" ("a." ++ "Res"),
       lineMapEntry ("\t" ++ "\t") ("b." ++ "Res"),
       lineClose "\t"] :=
  claim_c1 [] [] "Res" "map[string]resource.Quantity" "string"
    "resource.Quantity" (by decide)

/-- Claim C2, counterexample: for the field `X []*metav1.ObjectMeta`,
whose base name is registered in `EXTERNAL_TYPES`, the emitted
sequence-of-pointer element comparison is direct dereferenced value
equality, not `reflect.DeepEqual`. -/
theorem claim_c2_counterexample :
    fieldLines [] [] "X" "[]*metav1.ObjectMeta" =
      ["\tif len(a.X) != len(b.X) \x7b return false \x7d",
       "\tfor i := range a.X \x7b",
       "\t\tif (a.X[i] == nil) != (b.X[i] == nil) \x7b return false \x7d",
       "\t\tif a.X[i] != nil \x7b",
       "\t\t\tif *a.X[i] != *b.X[i] \x7b return false \x7d",
       "\t\t\x7d",
       "\t\x7d"] ∧
    "metav1.ObjectMeta" ∈ EXTERNAL_TYPES ∧
    "\t\t\tif !reflect.DeepEqual(*a.X[i], *b.X[i]) \x7b return false \x7d" ∉
      fieldLines [] [] "X" "[]*metav1.ObjectMeta" := by
  decide

/-- Claim C2 as amended: for every base name registered in
`EXTERNAL_TYPES` (and not shadowed by a registry key), the emitted
comparison invokes `reflect.DeepEqual` in the plain scalar, pointer, and
sequence-element positions, but in the sequence-of-pointer position the
external-opaque category is absent and the emitted comparison is direct
value equality of the dereferenced elements. -/
theorem claim_c2 : ∀ (s : Structs) (m : Maps) (fname b : String),
    b ∈ EXTERNAL_TYPES →
    acontains s b = false → acontains m b = false →
    fieldLines s m fname b =
      [lineDeepEqual "\t" ("a." ++ fname) ("b." ++ fname)] ∧
    fieldLines s m fname ("*" ++ b) =
      [lineNilGuard "\t" ("a." ++ fname) ("b." ++ fname),
       lineNotNilOpen "\t" ("a." ++ fname),
       lineDeepEqual "\t\t" ("*a." ++ fname) ("*b." ++ fname), "\t\x7d"] ∧
    fieldLines s m fname ("[]" ++ b) =
      [lineLen "\t" ("a." ++ fname) ("b." ++ fname),
       lineForRange "\t" ("a." ++ fname),
       lineDeepEqual ("\t" ++ "\t") (("a." ++ fname) ++ "[i]")
         (("b." ++ fname) ++ "[i]"),
       lineClose "\t"] ∧
    fieldLines s m fname ("[]" ++ ("*" ++ b)) =
      [lineLen "\t" ("a." ++ fname) ("b." ++ fname),
       lineForRange "\t" ("a." ++ fname),
       lineNilGuard ("\t" ++ "\t") (("a." ++ fname) ++ "[i]")
         (("b." ++ fname) ++ "[i]"),
       lineNotNilOpen ("\t" ++ "\t") (("a." ++ fname) ++ "[i]"),
       lineDirect ("\t" ++ "\t\t") ("*" ++ ("a." ++ fname) ++ "[i]")
         ("*" ++ ("b." ++ fname) ++ "[i]"),
       lineClose ("\t" ++ "\t"), lineClose "\t"] := by
  intro s m fname b hb hs hm
  simp only [EXTERNAL_TYPES, List.mem_cons, List.not_mem_nil, or_false] at hb
  rcases hb with rfl | rfl | rfl | rfl <;>
    exact externalFieldLines s m fname _ (by decide) (by decide) (by decide)
      hs hm (by decide) (by decide) (by decide)

/-- Witness for claim C2 at `metav1.ObjectMeta` in empty registries. -/
theorem claim_c2_witness :
    fieldLines [] [] "X" "metav1.ObjectMeta" =
      [lineDeepEqual "\t" ("a." ++ "X") ("b." ++ "X")] :=
  (claim_c2 [] [] "X" "metav1.ObjectMeta" (by decide) rfl rfl).1

/-- Claim C3, counterexample: `M` is a map-alias key (the earliest
classification category), yet in the sequence-element position the field
`F []M` is emitted with direct value equality (the last category), not
with a call to the generated `MEqual`: in that position a name of an
earlier category is handled by a later one, refuting the claimed fixed
precedence for every field position. -/
theorem claim_c3_counterexample :
    acontains [("M", ("string", "string"))] "M" = true ∧
    fieldLines [("S", [("F", "[]M")])] [("M", ("string", "string"))] "F" "[]M" =
      ["\tif len(a.F) != len(b.F) \x7b return false \x7d",
       "\tfor i := range a.F \x7b",
       "\t\tif a.F[i] != b.F[i] \x7b return false \x7d",
       "\t\x7d"] ∧
    "\t\tif !MEqual(a.F[i], b.F[i]) \x7b return false \x7d" ∉
      fieldLines [("S", [("F", "[]M")])] [("M", ("string", "string"))] "F" "[]M" := by
  decide

/-- Claim C3 as amended: the fixed precedence (map-alias, composite,
custom-equality, natively-comparable, external-opaque, default) holds as
claimed in the scalar position (and hence, by the pointer wrapping of
`fieldLines`, in the pointer position); in the sequence-element position
the map-alias category is absent, so the chain is composite >
custom-equality > natively-comparable > external-opaque > default; in
the sequence-of-pointer position the map-alias and external-opaque
categories are absent and the natively-comparable case emits the same
text as the default, so the chain is composite > custom-equality >
default. -/
theorem claim_c3 : ∀ (s : Structs) (m : Maps) (ind av bv b meth : String),
    (strStartsWith b "[]" = false → strStartsWith b "map[" = false →
      ((acontains m b = true →
        bodyLines s m ind av bv b = [lineStructCall ind b av bv]) ∧
       (acontains m b = false → acontains s b = true →
        bodyLines s m ind av bv b = [lineStructCall ind b av bv]) ∧
       (acontains m b = false → acontains s b = false →
        specialLookup b = some meth →
        bodyLines s m ind av bv b = [lineSpecialCall ind av meth bv]) ∧
       (acontains m b = false → acontains s b = false →
        specialLookup b = none → COMPARABLE_TYPES.contains b = true →
        bodyLines s m ind av bv b = [lineDirect ind av bv]) ∧
       (acontains m b = false → acontains s b = false →
        specialLookup b = none → COMPARABLE_TYPES.contains b = false →
        EXTERNAL_TYPES.contains b = true →
        bodyLines s m ind av bv b = [lineDeepEqual ind av bv]) ∧
       (acontains m b = false → acontains s b = false →
        specialLookup b = none → COMPARABLE_TYPES.contains b = false →
        EXTERNAL_TYPES.contains b = false →
        bodyLines s m ind av bv b = [lineDirect ind av bv]))) ∧
    (strStartsWith b "*" = false →
      ((acontains s b = true →
        bodyLines s m ind av bv ("[]" ++ b) =
          [lineLen ind av bv, lineForRange ind av,
           lineStructCall (ind ++ "\t") b (av ++ "[i]") (bv ++ "[i]"),
           lineClose ind]) ∧
       (acontains s b = false → specialLookup b = some meth →
        bodyLines s m ind av bv ("[]" ++ b) =
          [lineLen ind av bv, lineForRange ind av,
           lineSpecialCall (ind ++ "\t") (av ++ "[i]") meth (bv ++ "[i]"),
           lineClose ind]) ∧
       (acontains s b = false → specialLookup b = none →
        COMPARABLE_TYPES.contains b = true →
        bodyLines s m ind av bv ("[]" ++ b) =
          [lineLen ind av bv, lineForRange ind av,
           lineDirect (ind ++ "\t") (av ++ "[i]") (bv ++ "[i]"),
           lineClose ind]) ∧
       (acontains s b = false → specialLookup b = none →
        COMPARABLE_TYPES.contains b = false →
        EXTERNAL_TYPES.contains b = true →
        bodyLines s m ind av bv ("[]" ++ b) =
          [lineLen ind av bv, lineForRange ind av,
           lineDeepEqual (ind ++ "\t") (av ++ "[i]") (bv ++ "[i]"),
           lineClose ind]) ∧
       (acontains s b = false → specialLookup b = none →
        COMPARABLE_TYPES.contains b = false →
        EXTERNAL_TYPES.contains b = false →
        bodyLines s m ind av bv ("[]" ++ b) =
          [lineLen ind av bv, lineForRange ind av,
           lineDirect (ind ++ "\t") (av ++ "[i]") (bv ++ "[i]"),
           lineClose ind]))) ∧
    ((acontains s b = true →
      bodyLines s m ind av bv ("[]" ++ ("*" ++ b)) =
        [lineLen ind av bv, lineForRange ind av,
         lineNilGuard (ind ++ "\t") (av ++ "[i]") (bv ++ "[i]"),
         lineNotNilOpen (ind ++ "\t") (av ++ "[i]"),
         lineStructCall (ind ++ "\t\t") b ("*" ++ av ++ "[i]")
           ("*" ++ bv ++ "[i]"),
         lineClose (ind ++ "\t"), lineClose ind]) ∧
     (acontains s b = false → specialLookup b = some meth →
      bodyLines s m ind av bv ("[]" ++ ("*" ++ b)) =
        [lineLen ind av bv, lineForRange ind av,
         lineNilGuard (ind ++ "\t") (av ++ "[i]") (bv ++ "[i]"),
         lineNotNilOpen (ind ++ "\t") (av ++ "[i]"),
         lineSpecialCall (ind ++ "\t\t") (av ++ "[i]") meth
           ("*" ++ bv ++ "[i]"),
         lineClose (ind ++ "\t"), lineClose ind]) ∧
     (acontains s b = false → specialLookup b = none →
      bodyLines s m ind av bv ("[]" ++ ("*" ++ b)) =
        [lineLen ind av bv, lineForRange ind av,
         lineNilGuard (ind ++ "\t") (av ++ "[i]") (bv ++ "[i]"),
         lineNotNilOpen (ind ++ "\t") (av ++ "[i]"),
         lineDirect (ind ++ "\t\t") ("*" ++ av ++ "[i]") ("*" ++ bv ++ "[i]"),
         lineClose (ind ++ "\t"), lineClose ind])) := by
  intro s m ind av bv b meth
  refine ⟨?_, ?_, ?_⟩
  · intro h1 h2
    exact ⟨fun hm2 => bodyLines_scalar_alias s m ind av bv b h1 h2 hm2,
           fun hm2 hs2 => bodyLines_scalar_struct s m ind av bv b h1 h2 hm2 hs2,
           fun hm2 hs2 hsp => bodyLines_scalar_special s m ind av bv b meth h1 h2 hm2 hs2 hsp,
           fun hm2 hs2 hsp hc => bodyLines_scalar_comparable s m ind av bv b h1 h2 hm2 hs2 hsp hc,
           fun hm2 hs2 hsp hc he => bodyLines_scalar_external s m ind av bv b h1 h2 hm2 hs2 hsp hc he,
           fun hm2 hs2 hsp hc he => bodyLines_scalar_default s m ind av bv b h1 h2 hm2 hs2 hsp hc he⟩
  · intro h3
    refine ⟨?_, ?_, ?_, ?_, ?_⟩
    · intro hs2
      rw [bodyLines_seq s m ind av bv b h3]
      simp [hs2]
    · intro hs2 hsp
      rw [bodyLines_seq s m ind av bv b h3]
      simp [hs2, hsp]
    · intro hs2 hsp hc
      have hcm : b ∈ COMPARABLE_TYPES := by simpa using hc
      rw [bodyLines_seq s m ind av bv b h3]
      simp [hs2, hsp, hcm]
    · intro hs2 hsp hc he
      have hcm : b ∉ COMPARABLE_TYPES := by simpa using hc
      have hem : b ∈ EXTERNAL_TYPES := by simpa using he
      rw [bodyLines_seq s m ind av bv b h3]
      simp [hs2, hsp, hcm, hem]
    · intro hs2 hsp hc he
      have hcm : b ∉ COMPARABLE_TYPES := by simpa using hc
      have hem : b ∉ EXTERNAL_TYPES := by simpa using he
      rw [bodyLines_seq s m ind av bv b h3]
      simp [hs2, hsp, hcm, hem]
  · refine ⟨?_, ?_, ?_⟩
    · intro hs2
      rw [bodyLines_seqptr]
      simp [hs2]
    · intro hs2 hsp
      rw [bodyLines_seqptr]
      simp [hs2, hsp]
    · intro hs2 hsp
      rw [bodyLines_seqptr]
      simp [hs2, hsp]

/-- Witness for claim C3: a map-alias name in scalar position gets the
generated alias call, and in sequence-of-pointer position an
external-opaque name falls to direct value equality. -/
theorem claim_c3_witness :
    bodyLines [] [("M", ("string", "string"))] "\t" "a.F" "b.F" "M" =
      [lineStructCall "\t" "M" "a.F" "b.F"] ∧
    bodyLines [] [] "\t" "a.X" "b.X" ("[]" ++ ("*" ++ "metav1.ObjectMeta")) =
      [lineLen "\t" "a.X" "b.X", lineForRange "\t" "a.X",
       lineNilGuard ("\t" ++ "\t") ("a.X" ++ "[i]") ("b.X" ++ "[i]"),
       lineNotNilOpen ("\t" ++ "\t") ("a.X" ++ "[i]"),
       lineDirect ("\t" ++ "\t\t") ("*" ++ "a.X" ++ "[i]") ("*" ++ "b.X" ++ "[i]"),
       lineClose ("\t" ++ "\t"), lineClose "\t"] :=
  ⟨((claim_c3 [] [("M", ("string", "string"))] "\t" "a.F" "b.F" "M" "Equal").1
      (by decide) (by decide)).1 (by decide),
   ((claim_c3 [] [] "\t" "a.X" "b.X" "metav1.ObjectMeta" "Equal").2.2).2.2
      (by decide) (by decide)⟩

/-- Claim C4: a pointer field is emitted as the nil-symmetry guard
(returning false when exactly one side is nil, whatever the pointees
are) followed, under a both-non-nil check, by exactly the body that a
non-pointer field of the underlying base type would get, applied to the
dereferenced values; the last two conjuncts state the semantics of the
emitted guard template. -/
theorem claim_c4 (α : Type) : ∀ (s : Structs) (m : Maps) (fname t : String),
    (fieldLines s m fname ("*" ++ t) =
      [lineNilGuard "\t" ("a." ++ fname) ("b." ++ fname),
       lineNotNilOpen "\t" ("a." ++ fname)] ++
      bodyLines s m "\t\t" ("*a." ++ fname) ("*b." ++ fname) t ++
      ["\t\x7d"]) ∧
    (strStartsWith t "*" = false →
      fieldLines s m fname t =
        bodyLines s m "\t" ("a." ++ fname) ("b." ++ fname) t) ∧
    (∀ (inner : α → α → Bool) (x y : Option α),
      x.isSome ≠ y.isSome → ptrFieldSem inner x y = false) ∧
    (∀ (inner : α → α → Bool) (x y : α),
      ptrFieldSem inner (some x) (some y) = inner x y) := by
  intro s m fname t
  refine ⟨fieldLines_ptr s m fname t, fieldLines_nonptr s m fname t, ?_, ?_⟩
  · intro inner x y h
    cases x <;> cases y
    · exact absurd rfl h
    · rfl
    · rfl
    · exact absurd rfl h
  · intro inner x y
    rfl

/-- Witness for claim C4 at the `Owner *Pod` field of the Pod scenario
and a mismatched-nilness pointer pair. -/
theorem claim_c4_witness :
    fieldLines [("Pod", [("Owner", "*Pod")])] [] "Owner" "Pod" =
      bodyLines [("Pod", [("Owner", "*Pod")])] [] "\t" ("a." ++ "Owner")
        ("b." ++ "Owner") "Pod" ∧
    ptrFieldSem (fun (x y : Nat) => x == y) (some 1) none = false :=
  ⟨(claim_c4 Nat [("Pod", [("Owner", "*Pod")])] [] "Owner" "Pod").2.1 (by decide),
   (claim_c4 Nat [] [] "Owner" "Pod").2.2.1 _ (some 1) none (by decide)⟩

/-- Claim C5: for every registry and root name the worklist loop
terminates (`bfsRun` is a total function, its measure strictly
decreasing at every iteration), the computed visitation order has no
duplicates, and for every defined name in the order the emitted block
list contains exactly one block for it: the blocks are the image of the
defined names of the order, within which the name occurs exactly once —
in particular a composite type that references itself gets exactly one
emitted equality function. -/
theorem claim_c5 : ∀ (s : Structs) (m : Maps) (root : String),
    (visitationOrder s m root).Nodup ∧
    (outputBlockLines s m (visitationOrder s m root) =
      ((visitationOrder s m root).filter
        (fun n => acontains s n || acontains m n)).map (blockFor s m)) ∧
    ∀ n, n ∈ visitationOrder s m root →
      (acontains s n || acontains m n) = true →
      ((visitationOrder s m root).filter
        (fun x => acontains s x || acontains m x)).count n = 1 := by
  intro s m root
  have key : ∀ st : BfsState, st.queue ≠ [] →
      (st.ordered.Nodup ∧ ∀ x ∈ st.ordered, x ∈ st.seen) →
      ((bfsStep s m st).ordered.Nodup ∧
        ∀ x ∈ (bfsStep s m st).ordered, x ∈ (bfsStep s m st).seen) := by
    rintro ⟨q, sn, or⟩ hq ⟨hnd, hsub⟩
    cases q with
    | nil => exact absurd rfl hq
    | cons name rest =>
      by_cases hseen : name ∈ sn
      · rw [bfsStep_seen s m name rest sn or hseen]
        exact ⟨hnd, hsub⟩
      · rw [bfsStep_unseen s m name rest sn or hseen]
        refine ⟨?_, ?_⟩
        · rw [List.nodup_append]
          refine ⟨hnd, List.nodup_singleton name, ?_⟩
          intro x hx hx2
          simp only [List.mem_singleton] at hx2
          subst hx2
          exact hseen (hsub x hx)
        · intro x hx
          rcases List.mem_append.mp hx with h | h
          · exact List.mem_cons_of_mem _ (hsub x h)
          · simp only [List.mem_singleton] at h
            subst h
            exact List.mem_cons_self _ _
  have final := bfsRun_inv s m _ key ⟨[root], [], []⟩
    ⟨List.nodup_nil, by simp⟩
  have hnd : (visitationOrder s m root).Nodup := final.1
  refine ⟨hnd, outputBlockLines_eq s m _, ?_⟩
  intro n hn hdef
  exact List.count_eq_one_of_mem (hnd.filter _)
    (List.mem_filter.mpr ⟨hn, hdef⟩)

/-- The visitation order of the self-referencing one-type registry. -/
theorem selfRefOrder :
    visitationOrder [("T", [("Next", "*T")])] [] "T" = ["T"] := by
  rw [visitationOrder, bfsRun_cons _ _ _ (by decide),
      (by decide : bfsStep [("T", [("Next", "*T")])] [] ⟨["T"], [], []⟩ =
        ⟨[], ["T"], ["T"]⟩),
      bfsRun_nil _ _ _ rfl]

/-- Witness for claim C5 on the self-referencing registry
`type T struct` with field `Next *T`. -/
theorem claim_c5_witness :
    ((visitationOrder [("T", [("Next", "*T")])] [] "T").filter
      (fun x => acontains [("T", [("Next", "*T")])] x ||
        acontains ([] : Maps) x)).count "T" = 1 :=
  (claim_c5 [("T", [("Next", "*T")])] [] "T").2.2 "T"
    (by rw [selfRefOrder]; decide) (by decide)

/-- Claim C6, counterexample: in the registry declaring
`type S struct` with two fields `F1 B` and `F2 B` and `type B struct`,
processing `S` enqueues `B` twice, so the worklist holds two occurrences
of the not-yet-seen name `B` at the same time, refuting the claim that a
name is enqueued at most once before being marked seen. -/
theorem claim_c6_counterexample :
    (bfsStep [("S", [("F1", "B"), ("F2", "B")]), ("B", [])] []
      ⟨["S"], [], []⟩).queue = ["B", "B"] ∧
    "B" ∉ (bfsStep [("S", [("F1", "B"), ("F2", "B")]), ("B", [])] []
      ⟨["S"], [], []⟩).seen := by
  decide

/-- Claim C6 as amended: a name is enqueued only while it is not in the
seen set (the enqueue filter checks the seen set as updated by marking
the popped name), but one processing step may enqueue the same
not-yet-seen name several times — once per referencing field — so the
worklist can hold duplicates; the pop-time seen check discards them,
leaving each name processed at most once. -/
theorem claim_c6 : ∀ (s : Structs) (m : Maps) (st : BfsState)
    (name : String) (rest : List String),
    st.queue = name :: rest → name ∉ st.seen →
    ((∀ b ∈ childrenOf s m name (name :: st.seen),
        b ∉ (bfsStep s m st).seen) ∧
     (bfsStep s m st).queue = rest ++ childrenOf s m name (name :: st.seen) ∧
     ∀ (n2 : String) (r2 sn2 or2 : List String), n2 ∈ sn2 →
       bfsStep s m ⟨n2 :: r2, sn2, or2⟩ = ⟨r2, sn2, or2⟩) := by
  rintro s m ⟨q, sn, or⟩ name rest hq hns
  simp only at hq
  subst hq
  rw [bfsStep_unseen s m name rest sn or hns]
  exact ⟨fun b hb => (children_spec s m name _ b hb).2, rfl,
    fun n2 r2 sn2 or2 h2 => bfsStep_seen s m n2 r2 sn2 or2 h2⟩

/-- Witness for claim C6: processing `A` in the registry with
`type A struct` field `X B` and `type B struct` leaves exactly the
enqueued children on the worklist. -/
theorem claim_c6_witness :
    (bfsStep [("A", [("X", "B")]), ("B", [])] [] ⟨["A"], [], []⟩).queue =
      [] ++ childrenOf [("A", [("X", "B")]), ("B", [])] [] "A" ["A"] :=
  (claim_c6 [("A", [("X", "B")]), ("B", [])] [] ⟨["A"], [], []⟩ "A" []
    rfl (by decide)).2.1

/-- Claim C9: popping a reachable name that is defined in neither
registry never fails: the name is marked seen and appended to the
visitation order with nothing enqueued, and the emission phase silently
skips it (it contributes no block, wherever it occurs in the order). -/
theorem claim_c9 : ∀ (s : Structs) (m : Maps) (st : BfsState)
    (name : String) (rest : List String),
    st.queue = name :: rest → name ∉ st.seen →
    acontains s name = false → acontains m name = false →
    (bfsStep s m st = ⟨rest, name :: st.seen, st.ordered ++ [name]⟩ ∧
     ∀ ord1 ord2 : List String,
       outputBlockLines s m (ord1 ++ name :: ord2) =
         outputBlockLines s m (ord1 ++ ord2)) := by
  rintro s m ⟨q, sn, or⟩ name rest hq hns hsf hmf
  simp only at hq
  subst hq
  have hs0 : alookup s name = none := acontains_false s name hsf
  have hm0 : alookup m name = none := acontains_false m name hmf
  constructor
  · rw [bfsStep_unseen s m name rest sn or hns,
        childrenOf_nil s m name _ hs0 hm0, List.append_nil]
  · intro ord1 ord2
    simp [outputBlockLines, List.filterMap_append, List.filterMap_cons,
      hs0, hm0]

/-- Witness for claim C9: the undefined root `X` is marked seen and
appended with nothing enqueued. -/
theorem claim_c9_witness :
    bfsStep [("S", [("F", "B")])] [] ⟨["X"], [], []⟩ =
      ⟨[], "X" :: [], [] ++ ["X"]⟩ :=
  (claim_c9 [("S", [("F", "B")])] [] ⟨["X"], [], []⟩ "X" [] rfl (by decide)
    (by decide) (by decide)).1

/-- Claim C10: every name in the visitation order other than the root is
a key of the composite or map-alias registry — names are enqueued only
after passing a registry-membership check, so the root is the only name
that can appear in the order without a definition. -/
theorem claim_c10 : ∀ (s : Structs) (m : Maps) (root n : String),
    n ∈ visitationOrder s m root → n ≠ root →
    (acontains s n || acontains m n) = true := by
  intro s m root n hn hne
  have key : ∀ st : BfsState, st.queue ≠ [] →
      ((∀ x ∈ st.queue, x = root ∨ (acontains s x || acontains m x) = true) ∧
       (∀ x ∈ st.ordered, x = root ∨ (acontains s x || acontains m x) = true)) →
      ((∀ x ∈ (bfsStep s m st).queue,
          x = root ∨ (acontains s x || acontains m x) = true) ∧
       (∀ x ∈ (bfsStep s m st).ordered,
          x = root ∨ (acontains s x || acontains m x) = true)) := by
    rintro ⟨q, sn, or⟩ hq ⟨hpq, hpo⟩
    cases q with
    | nil => exact absurd rfl hq
    | cons nm rest =>
      by_cases hseen : nm ∈ sn
      · rw [bfsStep_seen s m nm rest sn or hseen]
        exact ⟨fun x hx => hpq x (List.mem_cons_of_mem _ hx), hpo⟩
      · rw [bfsStep_unseen s m nm rest sn or hseen]
        refine ⟨?_, ?_⟩
        · intro x hx
          rcases List.mem_append.mp hx with h | h
          · exact hpq x (List.mem_cons_of_mem _ h)
          · exact Or.inr (children_spec s m nm _ x h).1
        · intro x hx
          rcases List.mem_append.mp hx with h | h
          · exact hpo x h
          · simp only [List.mem_singleton] at h
            subst h
            exact hpq x (List.mem_cons_self _ _)
  have final := bfsRun_inv s m _ key ⟨[root], [], []⟩
    ⟨by simp, by simp⟩
  rcases final.2 n hn with h | h
  · exact absurd h hne
  · exact h

/-- The visitation order of a two-type registry rooted at `R`. -/
theorem twoTypeOrder :
    visitationOrder [("R", [("F", "C")]), ("C", [])] [] "R" = ["R", "C"] := by
  rw [visitationOrder, bfsRun_cons _ _ _ (by decide),
      (by decide : bfsStep [("R", [("F", "C")]), ("C", [])] []
        ⟨["R"], [], []⟩ = ⟨["C"], ["R"], ["R"]⟩),
      bfsRun_cons _ _ _ (by decide),
      (by decide : bfsStep [("R", [("F", "C")]), ("C", [])] []
        ⟨["C"], ["R"], ["R"]⟩ = ⟨[], ["C", "R"], ["R", "C"]⟩),
      bfsRun_nil _ _ _ rfl]

/-- Witness for claim C10: the non-root visited name `C` is a registry
key. -/
theorem claim_c10_witness :
    (acontains [("R", [("F", "C")]), ("C", [])] "C" ||
      acontains ([] : Maps) "C") = true :=
  claim_c10 [("R", [("F", "C")]), ("C", [])] [] "R" "C"
    (by rw [twoTypeOrder]; decide) (by decide)

/-- Claim C7: parsing the scenario input (`type Pod struct` with fields
`Name string`, `Labels map[string]string`, `Owner *Pod`) yields exactly
the one composite type, the visitation order from root `Pod` is exactly
`[Pod]`, and the emitted `PodEqual` compares `Name` by direct value
equality, `Labels` by an entry-count check plus per-key lookup and value
comparison, and `Owner` by the nil-symmetry guard plus a recursive
`PodEqual` call on the dereferenced values. -/
theorem claim_c7 :
    parse_types podScenarioInput =
      ([("Pod", [("Name", "string"), ("Labels", "map[string]string"),
        ("Owner", "*Pod")])], ([] : Maps)) ∧
    visitationOrder (parse_types podScenarioInput).1
      (parse_types podScenarioInput).2 "Pod" = ["Pod"] ∧
    equalMethodLines "Pod"
      [("Name", "string"), ("Labels", "map[string]string"), ("Owner", "*Pod")]
      (parse_types podScenarioInput).1 (parse_types podScenarioInput).2 =
      ["func PodEqual(a, b corev1.Pod) bool \x7b",
       "\tif a.Name != b.Name \x7b return false \x7d",
       "\tif len(a.Labels) != len(b.Labels) \x7b return false \x7d",
       "\tfor k, v := range a.Labels \x7b",
       "\t\tif v2, ok := b.Labels[k]; !ok || v != v2 \x7b return false \x7d",
       "\t\x7d",
       "\tif (a.Owner == nil) != (b.Owner == nil) \x7b return false \x7d",
       "\tif a.Owner != nil \x7b",
       "\t\tif !PodEqual(*a.Owner, *b.Owner) \x7b return false \x7d",
       "\t\x7d",
       "\treturn true",
       "\x7d"] := by
  refine ⟨by decide, ?_, by decide⟩
  have hp1 : (parse_types podScenarioInput).1 =
      [("Pod", [("Name", "string"), ("Labels", "map[string]string"),
        ("Owner", "*Pod")])] := by decide
  have hp2 : (parse_types podScenarioInput).2 = ([] : Maps) := by decide
  rw [hp1, hp2, visitationOrder, bfsRun_cons _ _ _ (by decide),
      (by decide : bfsStep
        [("Pod", [("Name", "string"), ("Labels", "map[string]string"),
          ("Owner", "*Pod")])] [] ⟨["Pod"], [], []⟩ = ⟨[], ["Pod"], ["Pod"]⟩),
      bfsRun_nil _ _ _ rfl]

/-- Claim C8: the composed parse, graph-build and emit pipeline is a
pure function of the input text, root name and (compiled-in) override
tables, so two runs on identical input produce identical output text;
the emitted blocks are exactly the blocks of the defined names of the
visitation order, in that order, each block opening with the header line
naming its type. -/
theorem claim_c8 : ∀ (content root : String),
    generatorOutput content root = generatorOutput content root ∧
    outputBlockLines (parse_types content).1 (parse_types content).2
        (visitationOrder (parse_types content).1 (parse_types content).2 root) =
      ((visitationOrder (parse_types content).1 (parse_types content).2
        root).filter
        (fun n => acontains (parse_types content).1 n ||
          acontains (parse_types content).2 n)).map
        (blockFor (parse_types content).1 (parse_types content).2) ∧
    ∀ n, (acontains (parse_types content).1 n ||
        acontains (parse_types content).2 n) = true →
      (blockFor (parse_types content).1 (parse_types content).2 n).head? =
        some (lineHeader n) := by
  intro content root
  exact ⟨rfl, outputBlockLines_eq _ _ _, fun n h => blockFor_head _ _ n h⟩

/-- Witness for claim C8 on the scenario input. -/
theorem claim_c8_witness :
    (blockFor (parse_types podScenarioInput).1
      (parse_types podScenarioInput).2 "Pod").head? = some (lineHeader "Pod") :=
  (claim_c8 podScenarioInput "Pod").2.2 "Pod" (by decide)

end PodspecGen
